import Mathlib

/-!
Verification development for the `setpipelinehelpers` package of the fly CLI
(`atc_config.go`).  The package resolves a pipeline configuration document
against flag- and file-supplied variables (in two placeholder syntaxes, a
legacy one and a current strict one), diffs the result against the
currently-deployed configuration, and applies it after confirmation.

The Go file under verification contains the orchestration (`Set`,
`newConfig`, `resolveTemplates`, `resolveDeprecatedTemplateStyle`,
`ApplyConfigInteraction`, `showHelpfulMessage`, `diff`).  The template
evaluators (bosh `template.Template` / fly `template`), the marker sniffing
predicate, and `diffIndices` with the per-collection indices live outside the
file; they are modelled from the specification where noted.
-/

namespace SetPipeline

/-- A token of a placeholder syntax: either a literal character of the
document or a placeholder with its variable name. -/
inductive Tok where
  | lit (c : Char)
  | var (n : String)
deriving DecidableEq

/-- Characters allowed in a current-syntax (`((name))`) variable name. -/
def varCharCur (c : Char) : Bool :=
  c.isAlphanum || c = '-' || c = '_' || c = '.'

/-- Characters allowed in a legacy-syntax (`\x7b\x7bname\x7d\x7d`) variable name. -/
def varCharLeg (c : Char) : Bool :=
  c.isAlphanum || c = '-' || c = '_'

/-- Longest prefix of characters satisfying `p`, together with the rest. -/
def spanP (p : Char → Bool) : List Char → List Char × List Char
  | [] => ([], [])
  | c :: cs =>
    if p c then ((spanP p cs).1.cons c, (spanP p cs).2) else ([], c :: cs)

theorem spanP_append (p : Char → Bool) (l : List Char) :
    (spanP p l).1 ++ (spanP p l).2 = l := by
  induction l with
  | nil => rfl
  | cons c cs ih =>
    by_cases h : p c
    · simp [spanP, h, ih]
    · simp [spanP, h]

/-- Expect the two characters `a` then `b` at the head of `l`; on success
return the remainder. -/
def expectTwo (a b : Char) (l : List Char) : Option (List Char) :=
  match l with
  | c1 :: c2 :: r => if c1 = a ∧ c2 = b then some r else none
  | _ => none

theorem expectTwo_eq_some {a b : Char} {l r : List Char}
    (h : expectTwo a b l = some r) : l = a :: b :: r := by
  match l with
  | [] => simp [expectTwo] at h
  | [c] => simp [expectTwo] at h
  | c1 :: c2 :: t =>
    simp only [expectTwo] at h
    split at h
    · rename_i hc
      obtain ⟨h1, h2⟩ := hc
      cases h
      simp [h1, h2]
    · cases h

/-- Parse a variable name followed by the two closing characters.  Used right
after the two opening characters of a placeholder have been consumed. -/
def parseNameClose (vc : Char → Bool) (c1 c2 : Char) (l : List Char) :
    Option (String × List Char) :=
  if (spanP vc l).1.isEmpty then none
  else
    match expectTwo c1 c2 (spanP vc l).2 with
    | some r => some (String.mk (spanP vc l).1, r)
    | none => none

theorem parseNameClose_sound {vc : Char → Bool} {c1 c2 : Char}
    {l r : List Char} {s : String}
    (h : parseNameClose vc c1 c2 l = some (s, r)) :
    l = s.data ++ c1 :: c2 :: r ∧ s.data ≠ [] := by
  simp only [parseNameClose] at h
  split at h
  · cases h
  · rename_i hne
    rcases he : expectTwo c1 c2 (spanP vc l).2 with _ | r'
    · rw [he] at h; cases h
    · rw [he] at h
      cases h
      have hsp := spanP_append vc l
      have hrest := expectTwo_eq_some he
      constructor
      · have hl : l = (spanP vc l).1 ++ (spanP vc l).2 := hsp.symm
        rw [hrest] at hl
        exact hl
      · intro hnil
        rw [show (String.mk (spanP vc l).1).data = (spanP vc l).1 from rfl] at hnil
        rw [hnil] at hne
        simp at hne

/-- Parse a full placeholder `o1 o2 name c1 c2` at the head of `l`. -/
def parsePlaceholderAt (o1 o2 c1 c2 : Char) (vc : Char → Bool) (l : List Char) :
    Option (String × List Char) :=
  match expectTwo o1 o2 l with
  | some rest => parseNameClose vc c1 c2 rest
  | none => none

theorem parsePlaceholderAt_sound {o1 o2 c1 c2 : Char} {vc : Char → Bool}
    {l r : List Char} {s : String}
    (h : parsePlaceholderAt o1 o2 c1 c2 vc l = some (s, r)) :
    l = o1 :: o2 :: s.data ++ c1 :: c2 :: r ∧ s.data ≠ [] := by
  simp only [parsePlaceholderAt] at h
  rcases he : expectTwo o1 o2 l with _ | rest
  · rw [he] at h; cases h
  · rw [he] at h
    have h1 := expectTwo_eq_some he
    have h2 := parseNameClose_sound h
    refine ⟨?_, h2.2⟩
    rw [h1, h2.1]
    simp

theorem parsePlaceholderAt_length {o1 o2 c1 c2 : Char} {vc : Char → Bool}
    {l r : List Char} {s : String}
    (h : parsePlaceholderAt o1 o2 c1 c2 vc l = some (s, r)) :
    r.length + 5 ≤ l.length := by
  obtain ⟨hl, hne⟩ := parsePlaceholderAt_sound h
  have : s.data.length ≥ 1 := by
    cases hd : s.data with
    | nil => exact absurd hd hne
    | cons a t => simp
  rw [hl]
  simp only [List.length_cons, List.length_append]
  omega

/-- Fuel-indexed scanner: splits a document into literal characters and
placeholders of the syntax given by the bracket characters and name charset.
Mirrors leftmost-match regex scanning: at each position, a well-formed
placeholder is consumed whole, otherwise one literal character is consumed. -/
def tokenizeF (o1 o2 c1 c2 : Char) (vc : Char → Bool) : Nat → List Char → List Tok
  | _, [] => []
  | 0, _ :: _ => []
  | fuel + 1, c :: rest =>
    match parsePlaceholderAt o1 o2 c1 c2 vc (c :: rest) with
    | some (nm, r) => .var nm :: tokenizeF o1 o2 c1 c2 vc fuel r
    | none => .lit c :: tokenizeF o1 o2 c1 c2 vc fuel rest

/-- Scanner for a placeholder syntax, with enough fuel for the whole input. -/
def tokenize (o1 o2 c1 c2 : Char) (vc : Char → Bool) (l : List Char) : List Tok :=
  tokenizeF o1 o2 c1 c2 vc l.length l

/-- Print a token back in the syntax it was scanned from. -/
def renderTok (o1 o2 c1 c2 : Char) : Tok → List Char
  | .lit c => [c]
  | .var n => o1 :: o2 :: n.data ++ c1 :: c2 :: []

theorem tokenizeF_roundtrip (o1 o2 c1 c2 : Char) (vc : Char → Bool) :
    ∀ (fuel : Nat) (l : List Char), l.length ≤ fuel →
      ((tokenizeF o1 o2 c1 c2 vc fuel l).map (renderTok o1 o2 c1 c2)).flatten = l := by
  intro fuel
  induction fuel with
  | zero =>
    intro l h
    have : l = [] := List.eq_nil_of_length_eq_zero (Nat.le_zero.mp h)
    subst this
    rfl
  | succ f ih =>
    intro l h
    cases l with
    | nil => rfl
    | cons c rest =>
      rcases hp : parsePlaceholderAt o1 o2 c1 c2 vc (c :: rest) with _ | ⟨nm, r⟩
      · have hlen : rest.length ≤ f := by
          simp at h; omega
        simp [tokenizeF, hp, renderTok, ih rest hlen]
      · have hlen := parsePlaceholderAt_length hp
        have hr : r.length ≤ f := by
          simp at h hlen; omega
        obtain ⟨hs, hne⟩ := parsePlaceholderAt_sound hp
        simp only [tokenizeF, hp]
        simp [renderTok, ih r hr, hs]

theorem tokenize_roundtrip (o1 o2 c1 c2 : Char) (vc : Char → Bool) (l : List Char) :
    ((tokenize o1 o2 c1 c2 vc l).map (renderTok o1 o2 c1 c2)).flatten = l :=
  tokenizeF_roundtrip o1 o2 c1 c2 vc l.length l (Nat.le_refl _)

/-- The variable name of a token, when it is a placeholder. -/
def tokVarName : Tok → Option String
  | .lit _ => none
  | .var n => some n

/-- Tokens of the current `((name))` placeholder syntax. -/
def tokenizeCur (doc : List Char) : List Tok :=
  tokenize '(' '(' ')' ')' varCharCur doc

/-- Tokens of the legacy `\x7b\x7bname\x7d\x7d` placeholder syntax. -/
def tokenizeLeg (doc : List Char) : List Tok :=
  tokenize '{' '{' '}' '}' varCharLeg doc

/-- Names of all current-syntax placeholders of a document, in order. -/
def placeholdersCur (doc : List Char) : List String :=
  (tokenizeCur doc).filterMap tokVarName

/-- Names of all legacy-syntax placeholders of a document, in order. -/
def placeholdersLeg (doc : List Char) : List String :=
  (tokenizeLeg doc).filterMap tokVarName

/-- Render a current-syntax token, substituting the variable's value when the
store has one and leaving the placeholder as written otherwise. -/
def renderResolvedCur (lookup : String → Option String) : Tok → List Char
  | .lit c => [c]
  | .var n =>
    match lookup n with
    | some v => v.data
    | none => '(' :: '(' :: n.data ++ ')' :: ')' :: []

/-- Render a legacy-syntax token, substituting the variable's value when the
store has one and leaving the placeholder as written otherwise. -/
def renderResolvedLeg (lookup : String → Option String) : Tok → List Char
  | .lit c => [c]
  | .var n =>
    match lookup n with
    | some v => v.data
    | none => '{' :: '{' :: n.data ++ '}' :: '}' :: []

/-- Substitute current-syntax placeholders of a document from a store. -/
def substituteCur (lookup : String → Option String) (doc : List Char) : List Char :=
  ((tokenizeCur doc).map (renderResolvedCur lookup)).flatten

/-- Substitute legacy-syntax placeholders of a document from a store. -/
def substituteLeg (lookup : String → Option String) (doc : List Char) : List Char :=
  ((tokenizeLeg doc).map (renderResolvedLeg lookup)).flatten

/-- First occurrences of a list of names, duplicates removed. -/
def uniqStr : List String → List String
  | [] => []
  | x :: xs => x :: uniqStr (xs.filter (fun y => y ≠ x))
termination_by l => l.length
decreasing_by
  simp only [List.length_cons]
  have := List.length_filter_le (fun y => y ≠ x) xs
  omega

theorem mem_uniqStr (l : List String) (a : String) : a ∈ uniqStr l ↔ a ∈ l := by
  suffices h : ∀ (n : Nat) (l : List String), l.length ≤ n →
      ∀ a, a ∈ uniqStr l ↔ a ∈ l from h l.length l (Nat.le_refl _) a
  intro n
  induction n with
  | zero =>
    intro l h a
    have : l = [] := List.eq_nil_of_length_eq_zero (Nat.le_zero.mp h)
    subst this
    rw [uniqStr]
  | succ n ih =>
    intro l h a
    cases l with
    | nil => rw [uniqStr]
    | cons x xs =>
      rw [uniqStr]
      have hlen : (xs.filter (fun y => y ≠ x)).length ≤ n := by
        have := List.length_filter_le (fun y => y ≠ x) xs
        simp only [List.length_cons] at h
        omega
      rw [List.mem_cons, ih _ hlen a, List.mem_filter, List.mem_cons]
      by_cases hax : a = x
      · simp [hax]
      · simp [hax]

/-- Errors of the current-syntax (strict mode) template evaluator. -/
inductive TplError where
  | missingVariables (names : List String)
deriving DecidableEq

/-- Modelled from the spec: the current-syntax template evaluator (the bosh
`template.Template.Evaluate` dependency vendored outside `src/`).  It
substitutes `((name))` placeholders from the store; with `expectAllKeys`
(strict mode) it fails with `MissingVariableError` listing every placeholder
name that has no entry in the store, and produces no document. -/
def tplEvaluate (lookup : String → Option String) (expectAllKeys : Bool)
    (doc : List Char) : Except TplError (List Char) :=
  let missing := uniqStr ((placeholdersCur doc).filter (fun n => (lookup n).isNone))
  if expectAllKeys && !missing.isEmpty then .error (.missingVariables missing)
  else .ok (substituteCur lookup doc)

/-- Modelled from the spec: the legacy-syntax evaluator (the fly `template`
package, outside `src/`).  It substitutes `\x7b\x7bname\x7d\x7d` placeholders
from the legacy store, leaving unresolved placeholders as written; no strict
mode. -/
def legacyEvaluate (lookup : String → Option String) (doc : List Char) : List Char :=
  substituteLeg lookup doc

/-- Modelled from the spec: the pure legacy-marker detection predicate over
the raw bytes (fly `template.Present`, outside `src/`): true exactly when the
document contains at least one well-formed legacy placeholder. -/
def Present (doc : List Char) : Bool :=
  !(placeholdersLeg doc).isEmpty

/-- A flag-supplied variable pair: the current-namespace value and the
legacy-namespace value carried by one `-v name=value` flag. -/
structure VariablePairFlag where
  name : String
  value : String
  oldValue : String
deriving DecidableEq

/-- A parsed variable-file payload: a mapping from names to values. -/
abbrev VarMap := List (String × String)

/-- Lookup in one variable mapping; on duplicate keys the last entry wins
(mirroring map-insertion order semantics). -/
def storeLookup (m : VarMap) (k : String) : Option String :=
  (m.reverse.find? (fun kv => kv.1 == k)).map (fun kv => kv.2)

/-- The flag-variable store of the current namespace (`flagVars` in
`resolveTemplates`): one map insertion per flag, in order. -/
def flagStoreCur (vflags : List VariablePairFlag) (k : String) : Option String :=
  ((vflags.reverse).find? (fun f => f.name == k)).map (fun f => f.value)

/-- The flag-variable store of the legacy namespace (`flagVars` in
`resolveDeprecatedTemplateStyle`), carrying the legacy-typed values. -/
def flagStoreLeg (vflags : List VariablePairFlag) (k : String) : Option String :=
  ((vflags.reverse).find? (fun f => f.name == k)).map (fun f => f.oldValue)

/-- Modelled from the spec: lookup through a list of variable stores (the
bosh `template.MultiVars` dependency, outside `src/`).  The spec requires
flag-supplied variables — which `resolveTemplates` places first in the list —
to have the highest precedence, so the lookup returns the first store in list
order that has the key. -/
def multiLookup (stores : List (String → Option String)) (k : String) : Option String :=
  match stores with
  | [] => none
  | s :: rest =>
    match s k with
    | some v => some v
    | none => multiLookup rest k

/-- The store list built by `resolveTemplates`: the flag store first, then
the file payloads in reverse of the order they were supplied (the Go loop
walks `paramPayloads` from the last index down to 0). -/
def currentVarsList (paramPayloads : List VarMap) (vflags : List VariablePairFlag) :
    List (String → Option String) :=
  (fun k => flagStoreCur vflags k) :: paramPayloads.reverse.map (fun m => storeLookup m)

/-- `resolveTemplates` of `atc_config.go`: evaluate the document in strict
mode against the flag store followed by the reversed file stores.  File
payloads are taken already parsed; a payload that fails to parse aborts
resolution in the Go code before evaluation. -/
def resolveTemplates (configPayload : List Char) (paramPayloads : List VarMap)
    (vflags : List VariablePairFlag) : Except TplError (List Char) :=
  tplEvaluate (multiLookup (currentVarsList paramPayloads vflags)) true configPayload

/-- Modelled from the spec: the legacy `Variables.Merge` (fly `template`
package, outside `src/`).  Non-destructive key overwrite where the
higher-precedence argument — merged later, as the flag store is in
`resolveDeprecatedTemplateStyle` — replaces the receiver's entries. -/
def legMerge (a b : String → Option String) : String → Option String :=
  fun k =>
    match b k with
    | some v => some v
    | none => a k

/-- The merged legacy store built by `resolveDeprecatedTemplateStyle`: file
payloads folded in the order supplied, then the flag store merged last. -/
def legacyVarsLookup (paramPayloads : List VarMap) (vflags : List VariablePairFlag) :
    String → Option String :=
  legMerge
    (paramPayloads.foldl (fun acc m => legMerge acc (storeLookup m)) (fun _ => none))
    (flagStoreLeg vflags)

/-- `resolveDeprecatedTemplateStyle` of `atc_config.go`: evaluate the legacy
placeholders against the merged legacy store. -/
def resolveDeprecatedTemplateStyle (configPayload : List Char)
    (paramPayloads : List VarMap) (vflags : List VariablePairFlag) : List Char :=
  legacyEvaluate (legacyVarsLookup paramPayloads vflags) configPayload

/-- `newConfig` of `atc_config.go` (file reading elided): if the legacy
marker is present, resolve the deprecated style first; then always run the
strict current-syntax resolution over the result. -/
def newConfig (configPayload : List Char) (paramPayloads : List VarMap)
    (vflags : List VariablePairFlag) : Except TplError (List Char) :=
  let evaluatedConfig :=
    if Present configPayload
    then resolveDeprecatedTemplateStyle configPayload paramPayloads vflags
    else configPayload
  resolveTemplates evaluatedConfig paramPayloads vflags

/-- Reference lookup over the file sources alone: the value of `k` comes from
the latest-listed file (highest index) that contains `k`. -/
def searchFromLast (paramPayloads : List VarMap) (k : String) : Option String :=
  match paramPayloads with
  | [] => none
  | m :: rest =>
    match searchFromLast rest k with
    | some v => some v
    | none => storeLookup m k

/-- Reference merged lookup of the current namespace, written from the
precedence rule directly: the flag value when the flags contain `k`,
otherwise the value from the latest-listed file containing `k`. -/
def precedenceRefCur (paramPayloads : List VarMap) (vflags : List VariablePairFlag)
    (k : String) : Option String :=
  match flagStoreCur vflags k with
  | some v => some v
  | none => searchFromLast paramPayloads k

/-- Reference merged lookup of the legacy namespace: same precedence rule,
with the legacy-typed flag values. -/
def precedenceRefLeg (paramPayloads : List VarMap) (vflags : List VariablePairFlag)
    (k : String) : Option String :=
  match flagStoreLeg vflags k with
  | some v => some v
  | none => searchFromLast paramPayloads k

theorem multiLookup_append (a b : List (String → Option String)) (k : String) :
    multiLookup (a ++ b) k =
      match multiLookup a k with
      | some v => some v
      | none => multiLookup b k := by
  induction a with
  | nil => rw [List.nil_append, multiLookup]
  | cons s rest ih =>
    rw [List.cons_append, multiLookup, multiLookup]
    cases s k with
    | none => exact ih
    | some v => rfl

theorem multiLookup_reverse_files (p : List VarMap) (k : String) :
    multiLookup (p.reverse.map (fun m => storeLookup m)) k = searchFromLast p k := by
  induction p with
  | nil => rw [searchFromLast]; rfl
  | cons m rest ih =>
    rw [searchFromLast, List.reverse_cons, List.map_append, multiLookup_append, ih]
    cases searchFromLast rest k with
    | some v => rfl
    | none =>
      simp only [List.map_cons, List.map_nil, multiLookup]
      cases storeLookup m k with
      | some v => rfl
      | none => rfl

theorem foldl_legMerge (p : List VarMap) (init : String → Option String) (k : String) :
    (p.foldl (fun acc m => legMerge acc (storeLookup m)) init) k =
      match searchFromLast p k with
      | some v => some v
      | none => init k := by
  induction p generalizing init with
  | nil => rw [searchFromLast]; rfl
  | cons m rest ih =>
    rw [List.foldl_cons, ih, searchFromLast]
    cases searchFromLast rest k with
    | some v => rfl
    | none => simp only [legMerge]

/-- Claim C1, amended: in both the current and the legacy namespace the
merged variable lookup assigns to each key the flag value when the flags
contain it, and otherwise the value from the latest-listed file (highest
index) that contains it — flags have highest precedence and later-listed
files override earlier-listed ones. -/
theorem merged_lookup_eq_precedenceRef (p : List VarMap) (vflags : List VariablePairFlag)
    (k : String) :
    multiLookup (currentVarsList p vflags) k = precedenceRefCur p vflags k ∧
    legacyVarsLookup p vflags k = precedenceRefLeg p vflags k := by
  constructor
  · rw [currentVarsList, multiLookup, precedenceRefCur]
    cases flagStoreCur vflags k with
    | some v => rfl
    | none => exact multiLookup_reverse_files p k
  · rw [legacyVarsLookup, precedenceRefLeg]
    simp only [legMerge]
    cases flagStoreLeg vflags k with
    | some v => rfl
    | none =>
      rw [foldl_legMerge]
      cases searchFromLast p k with
      | some v => rfl
      | none => rfl

/-- The earliest-listed variable file of the C1 counterexample. -/
def c1FileA : VarMap := [("k", "v1")]

/-- The latest-listed variable file of the C1 counterexample. -/
def c1FileB : VarMap := [("k", "v2")]

/-- Claim C1 as stated is false: with two files both containing `k` and no
flags, the merged lookup of either namespace returns the latest-listed
file's value `v2`, not the earliest-listed file's value `v1` that the claim
requires. -/
theorem c1_earliest_file_counterexample :
    storeLookup c1FileA "k" = some "v1" ∧
    multiLookup (currentVarsList [c1FileA, c1FileB] []) "k" = some "v2" ∧
    multiLookup (currentVarsList [c1FileA, c1FileB] []) "k" ≠ some "v1" ∧
    legacyVarsLookup [c1FileA, c1FileB] [] "k" = some "v2" ∧
    legacyVarsLookup [c1FileA, c1FileB] [] "k" ≠ some "v1" := by
  refine ⟨rfl, rfl, ?_, rfl, ?_⟩ <;> decide

/-- Claim C2: the legacy evaluator runs exactly when the pure marker
predicate `Present` detects the legacy placeholder syntax in the raw
document, and the strict current evaluator always runs afterwards over the
legacy evaluator's output; with no legacy marker only the current evaluator
runs, on the original document. -/
theorem c2_legacy_then_current (doc : List Char) (p : List VarMap)
    (vflags : List VariablePairFlag) :
    (Present doc = true →
      newConfig doc p vflags =
        resolveTemplates (resolveDeprecatedTemplateStyle doc p vflags) p vflags) ∧
    (Present doc = false → newConfig doc p vflags = resolveTemplates doc p vflags) := by
  constructor <;> intro h <;> simp [newConfig, h]

/-- A document carrying one legacy-syntax marker, for the C2 witness. -/
def c2Doc : List Char := ['{', '{', 'a', '}', '}']

theorem c2_witness :
    Present c2Doc = true ∧
    newConfig c2Doc [] [] =
      resolveTemplates (resolveDeprecatedTemplateStyle c2Doc [] []) [] [] :=
  ⟨by decide, (c2_legacy_then_current c2Doc [] []).1 (by decide)⟩

/-- Claim C3: if some current-syntax placeholder of the document has no
entry in the merged store, strict resolution fails with a
`MissingVariableError` whose name list contains exactly the missing
placeholder names — every one of them — and no resolved document is
produced. -/
theorem c3_missing_variable_error (doc : List Char) (p : List VarMap)
    (vflags : List VariablePairFlag)
    (h : ∃ n, n ∈ placeholdersCur doc ∧
        multiLookup (currentVarsList p vflags) n = none) :
    ∃ names, resolveTemplates doc p vflags = .error (.missingVariables names) ∧
      ∀ n, n ∈ names ↔
        (n ∈ placeholdersCur doc ∧ multiLookup (currentVarsList p vflags) n = none) := by
  obtain ⟨n0, hn0mem, hn0none⟩ := h
  refine ⟨uniqStr ((placeholdersCur doc).filter
      (fun n => (multiLookup (currentVarsList p vflags) n).isNone)), ?_, ?_⟩
  · have hne : (uniqStr ((placeholdersCur doc).filter
        (fun n => (multiLookup (currentVarsList p vflags) n).isNone))).isEmpty = false := by
      rw [List.isEmpty_eq_false_iff_exists_mem]
      refine ⟨n0, ?_⟩
      rw [mem_uniqStr, List.mem_filter]
      exact ⟨hn0mem, by rw [hn0none]; rfl⟩
    simp [resolveTemplates, tplEvaluate, hne]
  · intro n
    rw [mem_uniqStr, List.mem_filter, Option.isNone_iff_eq_none]

/-- Document with placeholders `a`, `b`, `c` for the C3 witness. -/
def c3Doc : List Char :=
  ['(', '(', 'a', ')', ')', '(', '(', 'b', ')', ')', '(', '(', 'c', ')', ')']

/-- Flags supplying only `a` and `b` for the C3 witness. -/
def c3Flags : List VariablePairFlag := [⟨"a", "1", "1"⟩, ⟨"b", "2", "2"⟩]

theorem c3_witness :
    (∃ n, n ∈ placeholdersCur c3Doc ∧
        multiLookup (currentVarsList [] c3Flags) n = none) ∧
    ∃ names, resolveTemplates c3Doc [] c3Flags = .error (.missingVariables names) ∧
      ∀ n, n ∈ names ↔
        (n ∈ placeholdersCur c3Doc ∧ multiLookup (currentVarsList [] c3Flags) n = none) :=
  ⟨⟨"c", by decide, by decide⟩,
    c3_missing_variable_error c3Doc [] c3Flags ⟨"c", by decide, by decide⟩⟩

/-- Helper: a document with no current-syntax placeholders is unchanged by
current-syntax substitution. -/
theorem substituteCur_id (lookup : String → Option String) (doc : List Char)
    (h : placeholdersCur doc = []) : substituteCur lookup doc = doc := by
  have h2 : ∀ t ∈ tokenizeCur doc, renderResolvedCur lookup t = renderTok '(' '(' ')' ')' t := by
    intro t ht
    cases t with
    | lit c => rfl
    | var n =>
      exfalso
      have hmem : n ∈ placeholdersCur doc := by
        unfold placeholdersCur
        exact List.mem_filterMap.mpr ⟨Tok.var n, ht, rfl⟩
      rw [h] at hmem
      cases hmem
  unfold substituteCur
  rw [List.map_congr_left h2]
  exact tokenize_roundtrip '(' '(' ')' ')' varCharCur doc

/-- Claim C6: a document with zero placeholders of either syntax resolves
successfully against any variable store, unchanged byte for byte. -/
theorem c6_no_placeholders_unchanged (doc : List Char) (p : List VarMap)
    (vflags : List VariablePairFlag)
    (hleg : placeholdersLeg doc = []) (hcur : placeholdersCur doc = []) :
    newConfig doc p vflags = .ok doc := by
  have hpres : Present doc = false := by
    unfold Present
    rw [hleg]
    rfl
  have hsub := substituteCur_id (multiLookup (currentVarsList p vflags)) doc hcur
  simp [newConfig, hpres, resolveTemplates, tplEvaluate, hcur, uniqStr, hsub]

/-- A placeholder-free document for the C6 witness. -/
def c6Doc : List Char := ['h', 'i', ':', ' ', 'x']

theorem c6_witness :
    placeholdersLeg c6Doc = [] ∧ placeholdersCur c6Doc = [] ∧
    newConfig c6Doc [[("a", "b")]] [⟨"c", "d", "d"⟩] = .ok c6Doc :=
  ⟨by decide, by decide,
    c6_no_placeholders_unchanged c6Doc [[("a", "b")]] [⟨"c", "d", "d"⟩]
      (by decide) (by decide)⟩

/-- The structured body of a configuration entity, compared by deep
structural equality. -/
abbrev EntityBody := List (String × String)

/-- A configuration entity: a unique name and its remaining content. -/
structure Entity where
  name : String
  body : EntityBody
deriving DecidableEq

/-- A name-keyed index over one entity collection. -/
abbrev EntityIndex := List (String × EntityBody)

/-- Modelled from the spec: NamedEntityIndex building (the per-collection
`GroupIndex`/`ResourceIndex`/`ResourceTypeIndex`/`JobIndex` helpers, outside
`src/`): one entry per distinct name, last write wins. -/
def entityIndex (es : List Entity) : EntityIndex :=
  es.foldl (fun acc e => acc.filter (fun kv => kv.1 != e.name) ++ [(e.name, e.body)]) []

/-- A record of the structural diff between two indices. -/
inductive DiffRecord where
  | added (name : String) (body : EntityBody)
  | removed (name : String) (body : EntityBody)
  | changed (name : String) (oldBody newBody : EntityBody)
deriving DecidableEq

/-- The entity name a diff record is about. -/
def recordName : DiffRecord → String
  | .added n _ => n
  | .removed n _ => n
  | .changed n _ _ => n

/-- Lookup of a name in an index. -/
def idxLookup (i : EntityIndex) (n : String) : Option EntityBody :=
  (i.find? (fun e => e.1 == n)).map (fun e => e.2)

/-- Modelled from the spec: `diffIndices` (outside `src/`).  For every name
in the existing index and not the new one emit `Removed`; for every name in
the new index and not the existing one emit `Added`; for names in both with
structurally unequal bodies emit `Changed`; names in both with equal bodies
emit nothing.  Total over any two indices. -/
def diffIndices (oldIdx newIdx : EntityIndex) : List DiffRecord :=
  oldIdx.filterMap (fun e =>
    if (idxLookup newIdx e.1).isNone then some (.removed e.1 e.2) else none) ++
  newIdx.filterMap (fun e =>
    if (idxLookup oldIdx e.1).isNone then some (.added e.1 e.2) else none) ++
  oldIdx.filterMap (fun e =>
    match idxLookup newIdx e.1 with
    | some b2 => if e.2 = b2 then none else some (.changed e.1 e.2 b2)
    | none => none)

theorem idxLookup_cons_self {e : String × EntityBody} {t : EntityIndex} :
    idxLookup (e :: t) e.1 = some e.2 := by
  simp [idxLookup, List.find?_cons]

theorem idxLookup_cons_ne {e : String × EntityBody} {t : EntityIndex} {n : String}
    (h : e.1 ≠ n) : idxLookup (e :: t) n = idxLookup t n := by
  simp [idxLookup, List.find?_cons, h]

theorem idxLookup_of_mem {l : EntityIndex} {e : String × EntityBody}
    (hnd : (l.map Prod.fst).Nodup) (he : e ∈ l) : idxLookup l e.1 = some e.2 := by
  induction l with
  | nil => cases he
  | cons a t ih =>
    rcases List.mem_cons.mp he with rfl | ht
    · exact idxLookup_cons_self
    · have hne : a.1 ≠ e.1 := by
        intro hcontra
        have : e.1 ∈ t.map Prod.fst := List.mem_map.mpr ⟨e, ht, rfl⟩
        rw [← hcontra] at this
        exact (List.nodup_cons.mp hnd).1 this
      rw [idxLookup_cons_ne hne]
      exact ih (List.nodup_cons.mp hnd).2 ht

theorem idxLookup_isSome_of_mem {l : EntityIndex} {e : String × EntityBody}
    (he : e ∈ l) : (idxLookup l e.1).isSome = true := by
  rw [idxLookup]
  cases hf : l.find? (fun x => x.1 == e.1) with
  | some x => rfl
  | none =>
    exfalso
    have := List.find?_eq_none.mp hf e he
    simp at this

/-- Generic per-name characterization of one `filterMap` pass over a
well-formed (duplicate-free) index. -/
theorem filterMap_filter_name {n : String} (l : EntityIndex)
    (hnd : (l.map Prod.fst).Nodup) (f : String × EntityBody → Option DiffRecord)
    (hf : ∀ e r, f e = some r → recordName r = e.1) :
    (l.filterMap f).filter (fun r => recordName r == n) =
      match idxLookup l n with
      | some b => (f (n, b)).toList
      | none => [] := by
  induction l with
  | nil => simp [idxLookup]
  | cons e t ih =>
    have hnd' := (List.nodup_cons.mp hnd).2
    by_cases he : e.1 = n
    · have hkey : idxLookup (e :: t) n = some e.2 := by
        rw [← he]; exact idxLookup_cons_self
      have htail : (t.filterMap f).filter (fun r => recordName r == n) = [] := by
        rw [List.filter_eq_nil_iff]
        intro r hr
        obtain ⟨x, hx, hfx⟩ := List.mem_filterMap.mp hr
        have hxn : x.1 ≠ n := by
          intro hcontra
          have : x.1 ∈ t.map Prod.fst := List.mem_map.mpr ⟨x, hx, rfl⟩
          rw [hcontra, ← he] at this
          exact (List.nodup_cons.mp hnd).1 this
        rw [hf x r hfx]
        simpa using hxn
      have hen : e = (n, e.2) := by
        cases e
        simp_all
      cases hfe : f e with
      | none =>
        have hfn : f (n, e.2) = none := by rw [← hen]; exact hfe
        simp [List.filterMap_cons, hfe, hkey, hfn, htail]
      | some r =>
        have hfn : f (n, e.2) = some r := by rw [← hen]; exact hfe
        have hr : (recordName r == n) = true := by
          rw [hf e r hfe, he]
          exact beq_self_eq_true n
        simp [List.filterMap_cons, hfe, hkey, hfn, List.filter_cons, hr, htail]
    · have hkey : idxLookup (e :: t) n = idxLookup t n := idxLookup_cons_ne he
      rw [hkey, List.filterMap_cons]
      cases hfe : f e with
      | none => exact ih hnd'
      | some r =>
        rw [List.filter_cons]
        have : recordName r = e.1 := hf e r hfe
        have hne : (recordName r == n) = false := by
          rw [this]
          exact beq_eq_false_iff_ne.mpr he
        rw [hne]
        simp only [Bool.false_eq_true, if_false]
        exact ih hnd'

/-- Claim C4: over duplicate-free indices, the diff holds — for each name —
exactly one `Removed` when the name is only in the existing index, exactly
one `Added` when it is only in the new index, exactly one `Changed` with the
two bodies when it is in both with unequal bodies, and nothing when the
bodies are equal; the operation is a total function of the two indices. -/
theorem c4_diff_characterization (oldIdx newIdx : EntityIndex)
    (ho : (oldIdx.map Prod.fst).Nodup) (hn : (newIdx.map Prod.fst).Nodup)
    (n : String) :
    (diffIndices oldIdx newIdx).filter (fun r => recordName r == n) =
      match idxLookup oldIdx n, idxLookup newIdx n with
      | some b, none => [.removed n b]
      | none, some b => [.added n b]
      | some b1, some b2 => if b1 = b2 then [] else [.changed n b1 b2]
      | none, none => [] := by
  rw [diffIndices, List.filter_append, List.filter_append]
  rw [filterMap_filter_name oldIdx ho _
    (fun e r hr => by
      by_cases h : (idxLookup newIdx e.1).isNone <;> simp [h] at hr <;> simp [← hr, recordName])]
  rw [filterMap_filter_name newIdx hn _
    (fun e r hr => by
      by_cases h : (idxLookup oldIdx e.1).isNone <;> simp [h] at hr <;> simp [← hr, recordName])]
  rw [filterMap_filter_name oldIdx ho _
    (fun e r hr => by
      cases h : idxLookup newIdx e.1 with
      | none => rw [h] at hr; cases hr
      | some b2 =>
        rw [h] at hr
        by_cases hb : e.2 = b2 <;> simp [hb] at hr <;> simp [← hr, recordName])]
  cases hol : idxLookup oldIdx n with
  | none =>
    cases hnl : idxLookup newIdx n with
    | none => simp [hol, hnl]
    | some b => simp [hol, hnl]
  | some b1 =>
    cases hnl : idxLookup newIdx n with
    | none => simp [hol, hnl]
    | some b2 =>
      by_cases hb : b1 = b2 <;> simp [hol, hnl, hb]

/-- Claim C5: diffing any duplicate-free index against itself produces the
empty record sequence. -/
theorem c5_diff_self (X : EntityIndex) (h : (X.map Prod.fst).Nodup) :
    diffIndices X X = [] := by
  have hsome : ∀ e ∈ X, idxLookup X e.1 = some e.2 := fun e he => idxLookup_of_mem h he
  rw [diffIndices]
  have h1 : X.filterMap (fun e =>
      if (idxLookup X e.1).isNone then some (DiffRecord.removed e.1 e.2) else none) = [] := by
    rw [List.filterMap_eq_nil_iff]
    intro e he
    rw [hsome e he]
    rfl
  have h2 : X.filterMap (fun e =>
      if (idxLookup X e.1).isNone then some (DiffRecord.added e.1 e.2) else none) = [] := by
    rw [List.filterMap_eq_nil_iff]
    intro e he
    rw [hsome e he]
    rfl
  have h3 : X.filterMap (fun e =>
      match idxLookup X e.1 with
      | some b2 => if e.2 = b2 then none else some (DiffRecord.changed e.1 e.2 b2)
      | none => none) = [] := by
    rw [List.filterMap_eq_nil_iff]
    intro e he
    rw [hsome e he]
    simp
  rw [h1, h2, h3]
  rfl

/-- Existing index for the C4 witness. -/
def c4Old : EntityIndex := [("a", [("type", "git")]), ("gone", [("x", "1")])]

/-- New index for the C4 witness. -/
def c4New : EntityIndex := [("a", [("type", "s3")]), ("fresh", [("y", "2")])]

theorem c4_witness :
    (c4Old.map Prod.fst).Nodup ∧ (c4New.map Prod.fst).Nodup ∧
    (diffIndices c4Old c4New).filter (fun r => recordName r == "a") =
      [DiffRecord.changed "a" [("type", "git")] [("type", "s3")]] := by
  refine ⟨by decide, by decide, ?_⟩
  rw [c4_diff_characterization c4Old c4New (by decide) (by decide) "a"]
  decide

/-- A duplicate-free index for the C5 witness. -/
def c5Idx : EntityIndex := [("a", [("type", "git")]), ("b", [("type", "s3")])]

theorem c5_witness : (c5Idx.map Prod.fst).Nodup ∧ diffIndices c5Idx c5Idx = [] :=
  ⟨by decide, c5_diff_self c5Idx (by decide)⟩

/-- A parsed pipeline configuration: four independent named collections. -/
structure Config where
  groups : List Entity
  resources : List Entity
  resourceTypes : List Entity
  jobs : List Entity
deriving DecidableEq

/-- `diff` of `atc_config.go`: the per-collection diffs rendered by `Set`,
one `diffIndices` run per collection kind. -/
def diffConfig (existingConfig newConfig : Config) : List DiffRecord :=
  diffIndices (entityIndex existingConfig.groups) (entityIndex newConfig.groups) ++
  diffIndices (entityIndex existingConfig.resources) (entityIndex newConfig.resources) ++
  diffIndices (entityIndex existingConfig.resourceTypes) (entityIndex newConfig.resourceTypes) ++
  diffIndices (entityIndex existingConfig.jobs) (entityIndex newConfig.jobs)

/-- The error outcome of fetching the existing configuration
(`Team.PipelineConfig`): no error, a `PipelineConfigError` carrying the
remote validation messages, or any other error. -/
inductive FetchErr where
  | noErr
  | validation (msgs : List String)
  | other (e : String)
deriving DecidableEq

/-- What fetching the existing configuration returned: the parsed/defaulted
existing structure, the version token, and the error outcome. -/
structure FetchResult where
  config : Config
  version : String
  err : FetchErr
deriving DecidableEq

/-- What a successful `CreateOrUpdatePipelineConfig` call returned. -/
structure PutResult where
  created : Bool
  updated : Bool
  warnings : List String
deriving DecidableEq

/-- The human-facing outcome chosen by `showHelpfulMessage`. -/
inductive Outcome where
  | updatedMsg
  | createdMsg
  | panicMsg
deriving DecidableEq

/-- `showHelpfulMessage` of `atc_config.go`: `updated` is checked first and
reports the updated message, else `created` reports the created message,
else the function panics. -/
def showHelpfulMessage (created updated : Bool) : Outcome :=
  if updated then .updatedMsg
  else if created then .createdMsg
  else .panicMsg

/-- `ApplyConfigInteraction` of `atc_config.go`, with the interactive
prompt's answer supplied as an input: returns the confirmation answer and
whether the prompt was consulted.  With `SkipInteraction` set it returns
true without consulting the prompt; a prompt error is a declined
confirmation. -/
def ApplyConfigInteraction (skipInteraction : Bool)
    (promptResult : Except String Bool) : Bool × Bool :=
  if skipInteraction then (true, false)
  else
    match promptResult with
    | .error _ => (false, true)
    | .ok confirm => (confirm, true)

/-- Externally observable steps of one `Set` run, in order. -/
inductive Event where
  | diffRendered (records : List DiffRecord)
  | configErrorsShown (msgs : List String)
  | confirmAnswered (answer : Bool)
  | bailedOut
  | putCalled (pipeline version : String) (payload : List Char)
  | warningsShown (msgs : List String)
  | outcomeShown (o : Outcome)
deriving DecidableEq

/-- The result of one `Set` run: a nil error, a returned error, or the
`showHelpfulMessage` panic. -/
inductive SetResult where
  | ok
  | errRes (e : String)
  | panicked
deriving DecidableEq

/-- Responses of the external collaborators consumed by one `Set` run. -/
structure SetInputs where
  fetch : FetchResult
  parseNew : Except String Config
  skipInteraction : Bool
  promptResult : Except String Bool
  put : Except String PutResult

/-- `Set` of `atc_config.go`, over the already-resolved new document (a
resolution failure terminates the process inside `newConfig`, before this
workflow): fetch tolerates only a validation error, the diff is rendered,
validation messages shown, confirmation gates the single put call made with
the fetched version token, and the outcome is reported. -/
def Set (pipelineName : String) (newPayload : List Char) (i : SetInputs) :
    List Event × SetResult :=
  match i.fetch.err with
  | .other e => ([], .errRes e)
  | ferr =>
    let errorMessages :=
      match ferr with
      | .validation msgs => msgs
      | _ => []
    match i.parseNew with
    | .error e => ([], .errRes e)
    | .ok newCfg =>
      let ev1 := [Event.diffRendered (diffConfig i.fetch.config newCfg)]
      let ev2 := ev1 ++
        (if errorMessages.isEmpty then [] else [Event.configErrorsShown errorMessages])
      let answer := (ApplyConfigInteraction i.skipInteraction i.promptResult).1
      let ev3 := ev2 ++ [Event.confirmAnswered answer]
      if answer = false then (ev3 ++ [Event.bailedOut], .ok)
      else
        let ev4 := ev3 ++ [Event.putCalled pipelineName i.fetch.version newPayload]
        match i.put with
        | .error e => (ev4, .errRes e)
        | .ok pr =>
          let ev5 := ev4 ++
            (if pr.warnings.isEmpty then [] else [Event.warningsShown pr.warnings])
          let o := showHelpfulMessage pr.created pr.updated
          (ev5 ++ [Event.outcomeShown o], if o = .panicMsg then .panicked else .ok)

/-- Claim C7: a validation error on fetch is non-fatal — the diff against
the fetched structure is still rendered, the validation messages are shown,
and the confirmation step is still offered — while any other fetch error
aborts the workflow with that error before the diff is computed. -/
theorem c7_validation_nonfatal (pp : String) (pl : List Char) (cfg0 : Config)
    (ver : String) (msgs : List String) (newCfg : Config) (skip : Bool)
    (prompt : Except String Bool) (put : Except String PutResult)
    (hmsgs : msgs ≠ []) :
    (Event.diffRendered (diffConfig cfg0 newCfg) ∈
        (Set pp pl ⟨⟨cfg0, ver, .validation msgs⟩, .ok newCfg, skip, prompt, put⟩).1 ∧
      Event.configErrorsShown msgs ∈
        (Set pp pl ⟨⟨cfg0, ver, .validation msgs⟩, .ok newCfg, skip, prompt, put⟩).1 ∧
      Event.confirmAnswered (ApplyConfigInteraction skip prompt).1 ∈
        (Set pp pl ⟨⟨cfg0, ver, .validation msgs⟩, .ok newCfg, skip, prompt, put⟩).1) ∧
    (∀ e parse, Set pp pl ⟨⟨cfg0, ver, .other e⟩, parse, skip, prompt, put⟩ =
        ([], .errRes e)) := by
  constructor
  · cases msgs with
    | nil => exact absurd rfl hmsgs
    | cons m ms =>
      cases ha : (ApplyConfigInteraction skip prompt).1 with
      | false => simp [Set, ha]
      | true =>
        cases put with
        | error e => simp [Set, ha]
        | ok pr => simp [Set, ha]
  · intro e parse
    rfl

/-- Inputs for the C7 witness: a fetch that reports a validation error. -/
def c7Inputs : SetInputs :=
  ⟨⟨⟨[], [], [], []⟩, "v1", .validation ["bad"]⟩, .ok ⟨[], [], [], []⟩,
    true, .ok true, .ok ⟨true, false, []⟩⟩

theorem c7_witness :
    (["bad"] : List String) ≠ [] ∧
    Event.configErrorsShown ["bad"] ∈ (Set "p" [] c7Inputs).1 ∧
    Event.confirmAnswered (ApplyConfigInteraction true (.ok true)).1 ∈
      (Set "p" [] c7Inputs).1 := by
  have h := c7_validation_nonfatal "p" [] ⟨[], [], [], []⟩ "v1" ["bad"]
    ⟨[], [], [], []⟩ true (.ok true) (.ok ⟨true, false, []⟩) (by decide)
  exact ⟨by decide, h.1.2.1, h.1.2.2⟩

/-- Whether an event is an invocation of the store's put operation. -/
def isPutEvent : Event → Bool
  | .putCalled _ _ _ => true
  | _ => false

/-- Scan of a trace from the start: true when no put event occurs before a
confirmation that answered true. -/
def putOnlyAfterConfirm : List Event → Bool
  | [] => true
  | e :: rest =>
    if e = Event.confirmAnswered true then true
    else if isPutEvent e then false
    else putOnlyAfterConfirm rest

/-- Claim C8: the put call is gated by confirmation — after a declined
confirmation the run performs no put, bails out, and returns a nil error;
at most one put happens in any run; any put carries the pipeline name, the
fetched existing version token and the new payload, and only happens when
the confirmation gate answered true; and no put event ever occurs before
the true confirmation answer in the trace. -/
theorem c8_put_gated (pp : String) (pl : List Char) (i : SetInputs) :
    (Event.confirmAnswered false ∈ (Set pp pl i).1 →
      (Set pp pl i).1.countP isPutEvent = 0 ∧ (Set pp pl i).2 = .ok ∧
      Event.bailedOut ∈ (Set pp pl i).1) ∧
    (Set pp pl i).1.countP isPutEvent ≤ 1 ∧
    (∀ pp2 v pl2, Event.putCalled pp2 v pl2 ∈ (Set pp pl i).1 →
      (ApplyConfigInteraction i.skipInteraction i.promptResult).1 = true ∧
      pp2 = pp ∧ v = i.fetch.version ∧ pl2 = pl) ∧
    putOnlyAfterConfirm (Set pp pl i).1 = true := by
  obtain ⟨⟨cfg, ver, ferr⟩, parse, skip, prompt, put⟩ := i
  cases ferr with
  | other e => simp [Set, putOnlyAfterConfirm, isPutEvent]
  | noErr =>
    cases parse with
    | error e => simp [Set, putOnlyAfterConfirm, isPutEvent]
    | ok cfg2 =>
      cases ha : (ApplyConfigInteraction skip prompt).1 with
      | false => simp [Set, ha, putOnlyAfterConfirm, isPutEvent]
      | true =>
        cases put with
        | error e => simp [Set, ha, putOnlyAfterConfirm, isPutEvent]
        | ok pr =>
          by_cases hw : pr.warnings.isEmpty <;>
            simp [Set, ha, hw, putOnlyAfterConfirm, isPutEvent]
  | validation msgs =>
    cases parse with
    | error e => simp [Set, putOnlyAfterConfirm, isPutEvent]
    | ok cfg2 =>
      cases hm : msgs.isEmpty <;>
        cases ha : (ApplyConfigInteraction skip prompt).1 with
        | false => simp [Set, ha, hm, putOnlyAfterConfirm, isPutEvent]
        | true =>
          cases put with
          | error e => simp [Set, ha, hm, putOnlyAfterConfirm, isPutEvent]
          | ok pr =>
            by_cases hw : pr.warnings.isEmpty <;>
              simp [Set, ha, hm, hw, putOnlyAfterConfirm, isPutEvent]

/-- Inputs for the C8 witness: the prompt declines the confirmation. -/
def c8Inputs : SetInputs :=
  ⟨⟨⟨[], [], [], []⟩, "v1", .noErr⟩, .ok ⟨[], [], [], []⟩,
    false, .ok false, .ok ⟨true, false, []⟩⟩

theorem c8_witness :
    Event.confirmAnswered false ∈ (Set "p" [] c8Inputs).1 ∧
    (Set "p" [] c8Inputs).1.countP isPutEvent = 0 ∧
    (Set "p" [] c8Inputs).2 = SetResult.ok := by
  have h := (c8_put_gated "p" [] c8Inputs).1 (by decide)
  exact ⟨by decide, h.1, h.2.1⟩

/-- Claim C9 as stated is false: when the put result reports both `created`
and `updated` true, `showHelpfulMessage` reports the normal updated
outcome — it does not treat the both-true case as a fatal invariant
violation. -/
theorem c9_both_true_counterexample :
    showHelpfulMessage true true = Outcome.updatedMsg ∧
    Outcome.updatedMsg ≠ Outcome.panicMsg := by
  refine ⟨rfl, ?_⟩
  decide

/-- Claim C9, amended: `updated` is checked first, so updated-true reports
the updated outcome (even when `created` is also true), created-only
reports the created outcome, and only the both-false case is treated as a
fatal internal-consistency violation (panic).  Each of the three outcomes
is characterized, so the whole outcome table is pinned down. -/
theorem c9_outcome_by_flags :
    ∀ created updated : Bool,
      (showHelpfulMessage created updated = Outcome.updatedMsg ↔
        updated = true) ∧
      (showHelpfulMessage created updated = Outcome.createdMsg ↔
        created = true ∧ updated = false) ∧
      (showHelpfulMessage created updated = Outcome.panicMsg ↔
        created = false ∧ updated = false) := by
  decide

/-- Claim C10: with `SkipInteraction` set the confirmation gate returns true
without consulting the interactive prompt, and a prompt error is treated as
a declined confirmation (false), after consulting the prompt. -/
theorem c10_confirm_gate :
    (∀ promptResult, ApplyConfigInteraction true promptResult = (true, false)) ∧
    (∀ e, ApplyConfigInteraction false (.error e) = (false, true)) :=
  ⟨fun _ => rfl, fun _ => rfl⟩

end SetPipeline
